import Mathlib

/-!
Verification development for the adaptive assessment engine.

The definitions below are shallow embeddings of the JavaScript source:
numbers are modelled by the rationals, JavaScript objects keyed by
strings are modelled by association lists in insertion order, and the
mongoose session document is modelled by an explicit state record.
Definitions whose name matches a source function are direct translations
of that function; definitions whose name contains the word Claim follow
the wording of the specification and are compared with the source-side
definitions in the theorems.
-/

namespace Assessment

/-- Clamp a rational into the unit interval, the composition
Math.max(0, Math.min(1, x)) used by the source. -/
def clamp01 (x : ℚ) : ℚ := max 0 (min 1 x)

/-- Mastery update, translated from calculateMasteryUpdate in
services/ollama.js.  Difficulty is a string as in the source; an
unrecognised difficulty uses multiplier 1 because the source reads
difficultyMultipliers[difficulty] || 1.0. -/
def calculateMasteryUpdate (currentMastery score : ℚ) (difficulty : String) : ℚ :=
  let learningRate : ℚ :=
    if currentMastery < 0.3 then 0.8
    else if currentMastery < 0.6 then 0.6
    else 0.4
  let baseIncrement : ℚ :=
    if score ≥ 0.9 then 0.15
    else if score ≥ 0.7 then 0.1
    else if score ≥ 0.5 then 0.05
    else if score ≥ 0.3 then 0
    else -0.08
  let difficultyMult : ℚ :=
    if difficulty = "easy" then 0.7
    else if difficulty = "medium" then 1
    else if difficulty = "hard" then 1.4
    else 1
  let increment := baseIncrement * learningRate * difficultyMult
  clamp01 (currentMastery + increment)

/-- Learning rate exactly as worded in the specification of claim C1. -/
def masteryClaimLearningRate (m : ℚ) : ℚ :=
  if m < 0.3 then 0.8 else if m < 0.6 then 0.6 else 0.4

/-- Base increment exactly as worded in the specification of claim C1. -/
def masteryClaimBaseIncrement (s : ℚ) : ℚ :=
  if s ≥ 0.9 then 0.15
  else if s ≥ 0.7 then 0.1
  else if s ≥ 0.5 then 0.05
  else if s ≥ 0.3 then 0
  else -0.08

/-- Difficulty multiplier as worded in claim C1; the claim only speaks
about the three tiers easy, medium and hard. -/
def masteryClaimDifficultyMultiplier (d : String) : ℚ :=
  if d = "easy" then 0.7 else if d = "medium" then 1 else 1.4

/-- The update formula exactly as worded in claim C1:
clamp(previousMastery + baseIncrement * learningRate * difficultyMultiplier, 0, 1). -/
def masteryUpdateClaim (m s : ℚ) (d : String) : ℚ :=
  clamp01 (m + masteryClaimBaseIncrement s * masteryClaimLearningRate m *
    masteryClaimDifficultyMultiplier d)

/-- Static weighted prerequisite table from the OllamaService constructor. -/
def weightedPrerequisites (topic : String) : List (String × ℚ) :=
  if topic = "Binary Search Trees" then [("Trees", 0.8), ("Binary Search", 0.6)]
  else if topic = "Graphs" then [("Trees", 0.7)]
  else if topic = "Dynamic Programming" then [("Recursion", 0.9)]
  else if topic = "Hash Tables" then [("Arrays", 0.6)]
  else if topic = "Sorting Algorithms" then [("Arrays", 0.8)]
  else if topic = "Recursion" then [("Big O Notation", 0.4)]
  else if topic = "Trees" then [("Linked Lists", 0.5)]
  else if topic = "Stacks" then [("Arrays", 0.4)]
  else if topic = "Queues" then [("Arrays", 0.4)]
  else []

/-- Mastery lookup knowledgeState[prereq] || 0: an absent key reads as 0,
and a stored 0 is falsy in JavaScript and also reads as 0. -/
def lookupMastery : List (String × ℚ) → String → ℚ
  | [], _ => 0
  | (k, v) :: rest, t => if k = t then v else lookupMastery rest t

/-- The loop body of checkPrerequisites in services/ollama.js: walk the
prerequisite list in order and push every prerequisite whose mastery is
below the threshold 0.3 + weight * 0.3. -/
def missingOf (ks : List (String × ℚ)) : List (String × ℚ) → List String
  | [] => []
  | (p, w) :: rest =>
    if lookupMastery ks p < 0.3 + w * 0.3 then p :: missingOf ks rest
    else missingOf ks rest

/-- Prerequisite check, translated from checkPrerequisites in
services/ollama.js: the topic is allowed iff no prerequisite is missing. -/
def checkPrerequisites (topic : String) (ks : List (String × ℚ)) :
    Bool × List String :=
  let missingPrereqs := missingOf ks (weightedPrerequisites topic)
  (missingPrereqs.isEmpty, missingPrereqs)

/-- Difficulty adjustment, translated from adjustDifficulty in
services/ollama.js.  The topic and mastery parameters are accepted and
ignored exactly as in the source. -/
def adjustDifficulty (_topic : String) (_mastery : ℚ)
    (performanceHistory : List ℚ) : String :=
  let recentScores := performanceHistory.drop (performanceHistory.length - 5)
  let theta : ℚ :=
    if 0 < recentScores.length then
      recentScores.foldl (· + ·) 0 / recentScores.length
    else 0.5
  if theta < 0.3 then "easy"
  else if theta < 0.6 then "medium"
  else "hard"

/-- The ability estimate as worded in claim C6: the arithmetic mean of
the last five scores, with neutral prior 0.5 on an empty window. -/
def difficultyClaimTheta (history : List ℚ) : ℚ :=
  let window := history.drop (history.length - 5)
  if window = [] then 0.5 else window.sum / window.length

/-- The tier thresholds as worded in claim C6. -/
def difficultyClaimTier (theta : ℚ) : String :=
  if theta < 0.3 then "easy" else if theta < 0.6 then "medium" else "hard"

/-- Session history lookup sessionHistory[topic]: an absent key reads as
the empty attempt list. -/
def lookupHistory : List (String × List ℚ) → String → List ℚ
  | [], _ => []
  | (k, v) :: rest, t => if k = t then v else lookupHistory rest t

/-- Score given to one topic by the loop of selectNextTopic in
services/ollama.js: exploration bonus, mastery-gap bonus, then the
prerequisite bonus or penalty. -/
def topicScore (ks : List (String × ℚ)) (hist : List (String × List ℚ))
    (topic : String) : ℚ :=
  let mastery := lookupMastery ks topic
  let explore : ℚ := if (lookupHistory hist topic).isEmpty then 0.4 else 0
  let gap : ℚ :=
    if mastery < 0.3 then 0.3 else if mastery < 0.6 then 0.2 else 0.1
  let score := explore + gap
  if (checkPrerequisites topic ks).1 then score + 0.3 else score * 0.1

/-- Topic selection, translated from selectNextTopic in
services/ollama.js: reduce over the catalog keys keeping the current
topic unless a strictly higher-scoring one appears.  The JavaScript
reduce throws on an empty catalog, so the empty case is modelled by a
junk value and every theorem assumes a non-empty catalog. -/
def selectNextTopic (ks : List (String × ℚ))
    (hist : List (String × List ℚ)) : String :=
  match ks.map Prod.fst with
  | [] => ""
  | t :: rest =>
    rest.foldl
      (fun a b => if topicScore ks hist a > topicScore ks hist b then a else b) t

/-- Per-topic score exactly as worded in claim C4. -/
def topicScoreClaim (ks : List (String × ℚ)) (hist : List (String × List ℚ))
    (t : String) : ℚ :=
  let s1 : ℚ := if (lookupHistory hist t).length = 0 then 0.4 else 0
  let s2 : ℚ := s1 +
    (if lookupMastery ks t < 0.3 then 0.3
     else if lookupMastery ks t < 0.6 then 0.2 else 0.1)
  if (checkPrerequisites t ks).1 = true then s2 + 0.3 else s2 * 0.1

/-- One entry of the questionHistory array of the mongoose session. -/
structure QuestionRecord where
  topic : String
  question : String
  answer : String
  userAnswer : String
  score : ℚ
  difficulty : String
  timeSpent : ℚ
  timestamp : ℚ
deriving DecidableEq

/-- One entry of the knowledgeStates array of the mongoose session. -/
structure KnowledgeState where
  topic : String
  mastery : ℚ
  lastPracticed : ℚ
  streak : Int
deriving DecidableEq

/-- The mongoose session document, restricted to the fields the
adaptive engine reads and writes. -/
structure Session where
  knowledgeStates : List KnowledgeState
  questionHistory : List QuestionRecord
  currentStreaks : List (String × Int)
  learningVelocity : List (String × ℚ)
  isCompleted : Bool
deriving DecidableEq

/-- Map.get with a default, for the currentStreaks and learningVelocity
maps of the session. -/
def getKey {α : Type} (d : α) : List (String × α) → String → α
  | [], _ => d
  | (k', v') :: rest, k => if k' = k then v' else getKey d rest k

/-- Map.set: overwrite an existing key or append a new one. -/
def setKey {α : Type} : List (String × α) → String → α → List (String × α)
  | [], k, v => [(k, v)]
  | (k', v') :: rest, k, v =>
    if k' = k then (k, v) :: rest else (k', v') :: setKey rest k v

/-- The attempts recorded for one topic, in history order. -/
def topicAttempts (h : List QuestionRecord) (t : String) : List QuestionRecord :=
  h.filter fun x => x.topic = t

/-- Milliseconds between the first and the last record of a list, the
difference of Date values computed by addQuestionHistory. -/
def elapsedMs (l : List QuestionRecord) : ℚ :=
  ((l.getLast?.map fun x => x.timestamp).getD 0)
    - ((l.head?.map fun x => x.timestamp).getD 0)

/-- Attempt recording, translated from
SessionSchema.methods.addQuestionHistory in models/Session.js: push the
record, and when the topic now has at least two attempts store
count / hoursDiff as the learning velocity (0 when hoursDiff is not
positive).  The method never consults isCompleted. -/
def addQuestionHistory (s : Session) (q : QuestionRecord) : Session :=
  let history := s.questionHistory ++ [q]
  let topicQuestions := topicAttempts history q.topic
  if 2 ≤ topicQuestions.length then
    let hoursDiff := elapsedMs topicQuestions / 3600000
    let velocity : ℚ :=
      if 0 < hoursDiff then topicQuestions.length / hoursDiff else 0
    { s with questionHistory := history,
             learningVelocity := setKey s.learningVelocity q.topic velocity }
  else { s with questionHistory := history }

/-- The loop of SessionSchema.methods.updateKnowledgeState: mutate the
first knowledge state with the given topic, or push a new one. -/
def updateKS : List KnowledgeState → String → ℚ → Int → ℚ → List KnowledgeState
  | [], topic, m, st, now => [⟨topic, m, now, st⟩]
  | ks :: rest, topic, m, st, now =>
    if ks.topic = topic then
      { ks with mastery := m, lastPracticed := now, streak := st } :: rest
    else ks :: updateKS rest topic m st now

/-- Knowledge-state update, translated from
SessionSchema.methods.updateKnowledgeState in models/Session.js. -/
def updateKnowledgeState (s : Session) (topic : String) (m : ℚ) (st : Int)
    (now : ℚ) : Session :=
  { s with knowledgeStates := updateKS s.knowledgeStates topic m st now,
           currentStreaks := setKey s.currentStreaks topic st }

/-- Streak read currentKnowledgeState?.streak || 0: absent reads as 0,
and a stored 0 is falsy and also reads as 0. -/
def streakOf : List KnowledgeState → String → Int
  | [], _ => 0
  | ks :: rest, t => if ks.topic = t then ks.streak else streakOf rest t

/-- Streak computation of the submit-question route in
routes/assessment.js: previous streak plus one on a passing score,
reset to zero otherwise. -/
def submitQuestionStreak (s : Session) (topic : String) (score : ℚ) : Int :=
  if score ≥ 0.7 then streakOf s.knowledgeStates topic + 1 else 0

/-- Streak computation of the answer/evaluate route (and the
session/update route): Math.max(0, streak) + 1 on a passing score and
Math.min(0, streak) - 1 otherwise. -/
def evaluateRouteStreak (previousStreak : Int) (score : ℚ) : Int :=
  if score ≥ 0.7 then max 0 previousStreak + 1
  else min 0 previousStreak - 1

/-- The streak rule exactly as worded in claim C3: previous plus one at
or above the 0.7 threshold, otherwise reset to zero. -/
def streakClaim (prev : Int) (score : ℚ) : Int :=
  if score ≥ 0.7 then prev + 1 else 0

/-- Lower-case an ASCII letter, the effect of toLowerCase on the
difficulty strings used by the source. -/
def lowerChar (c : Char) : Char :=
  if 'A' ≤ c ∧ c ≤ 'Z' then Char.ofNat (c.toNat + 32) else c

/-- ASCII lower-casing of a string. -/
def lowerStr (s : String) : String := String.mk (s.data.map lowerChar)

/-- Mastery read currentKnowledgeState?.mastery || 0.3 of the
update-stats route: absent reads as the default 0.3, and a stored 0 is
falsy and also reads as 0.3. -/
def masteryOrDefault : List KnowledgeState → String → ℚ
  | [], _ => 0.3
  | ks :: rest, t =>
    if ks.topic = t then (if ks.mastery = 0 then 0.3 else ks.mastery)
    else masteryOrDefault rest t

/-- Score-band mastery change of the update-stats route in
routes/users.js. -/
def updateStatsBase (score : ℚ) : ℚ :=
  if score ≥ 0.8 then 0.15
  else if score ≥ 0.6 then 0.1
  else if score ≥ 0.4 then 0.05
  else -0.05

/-- Difficulty multiplier of the update-stats route in routes/users.js,
applied to the lower-cased difficulty, defaulting to 1. -/
def updateStatsMultiplier (d : String) : ℚ :=
  if lowerStr d = "easy" then 0.8
  else if lowerStr d = "medium" then 1
  else if lowerStr d = "hard" then 1.2
  else 1

/-- State change of the update-stats route in routes/users.js: record
the attempt, update mastery and streak, then overwrite the learning
velocity of the topic with its previous value plus one. -/
def updateStatsRoute (s : Session) (qd : QuestionRecord) (result : String) :
    Session :=
  let s1 := addQuestionHistory s qd
  let currentMastery := masteryOrDefault s1.knowledgeStates qd.topic
  let currentStreak := streakOf s1.knowledgeStates qd.topic
  let masteryChange := updateStatsBase qd.score * updateStatsMultiplier qd.difficulty
  let newMastery := clamp01 (currentMastery + masteryChange)
  let newStreak : Int := if result = "Correct" then currentStreak + 1 else 0
  let s2 := updateKnowledgeState s1 qd.topic newMastery newStreak qd.timestamp
  let currentVelocity := getKey 0 s2.learningVelocity qd.topic
  let s3 := { s2 with
    learningVelocity := setKey s2.learningVelocity qd.topic (currentVelocity + 1) }
  { s3 with currentStreaks := setKey s3.currentStreaks qd.topic newStreak }

/-- Learning velocity exactly as worded in claim C9: attempts divided by
hours between first and last attempt, 0 with fewer than two attempts or
zero elapsed time. -/
def claimVelocity (h : List QuestionRecord) (t : String) : ℚ :=
  let tq := topicAttempts h t
  let hours := elapsedMs tq / 3600000
  if tq.length < 2 then 0
  else if hours = 0 then 0
  else tq.length / hours

/-- Result of one answer evaluation as returned by services/ollama.js
in the server tree that talks to the Python assessment service. -/
structure Evaluation where
  score : ℚ
  isCorrect : Bool
  feedback : String
deriving DecidableEq

/-- Fallback evaluation, translated from generateFallbackEvaluation in
services/ollama.js: a pseudo-random score Math.random() * 0.4 + 0.3,
with the random draw made explicit as a parameter in [0,1). -/
def generateFallbackEvaluation (_question _answer _topic : String) (rand : ℚ) :
    Evaluation :=
  let score := rand * 0.4 + 0.3
  let isCorrect := decide (score ≥ 0.6)
  { score := score, isCorrect := isCorrect,
    feedback := if isCorrect then
        "Good job! Your understanding is developing well."
      else "Keep practicing! Consider reviewing the key concepts." }

/-- Answer evaluation, translated from evaluateAnswer in
services/ollama.js: forward the backend response when the call
succeeds, and on any backend failure return the fallback evaluation
instead of propagating the error. -/
def evaluateAnswer (backend : Except String Evaluation)
    (question answer topic : String) (rand : ℚ) : Except String Evaluation :=
  match backend with
  | Except.ok e => Except.ok e
  | Except.error _ =>
    Except.ok (generateFallbackEvaluation question answer topic rand)

/-- Digit accumulation of parseFloat on a digit run. -/
def natOfDigits (cs : List Char) : ℕ :=
  cs.foldl (fun n c => 10 * n + (c.toNat - 48)) 0

/-- Split off the maximal leading digit run. -/
def takeDigits : List Char → List Char × List Char
  | [] => ([], [])
  | c :: cs =>
    if c.isDigit then
      let p := takeDigits cs
      (c :: p.1, p.2)
    else ([], c :: cs)

/-- Match the regex piece [0-9]*\.?[0-9]+ at the current position,
returning the matched token and the rest.  Greedy matching with
backtracking collapses to: a digit run, optionally followed by a dot
and a further non-empty digit run; a trailing dot without digits is
left unconsumed. -/
def matchNumAt (cs : List Char) : Option (List Char × List Char) :=
  let p1 := takeDigits cs
  match p1.2 with
  | '.' :: r2 =>
    let p2 := takeDigits r2
    if p2.1 ≠ [] then some (p1.1 ++ '.' :: p2.1, p2.2)
    else if p1.1 ≠ [] then some (p1.1, p1.2)
    else none
  | _ => if p1.1 ≠ [] then some (p1.1, p1.2) else none

/-- parseFloat on a token produced by matchNumAt. -/
def ratOfToken (cs : List Char) : ℚ :=
  let p1 := takeDigits cs
  match p1.2 with
  | '.' :: r2 =>
    let d2 := (takeDigits r2).1
    (natOfDigits p1.1 : ℚ) + (natOfDigits d2 : ℚ) / (10 : ℚ) ^ d2.length
  | _ => (natOfDigits p1.1 : ℚ)

/-- The characters matched by the regex class \s. -/
def jsSpace (c : Char) : Bool :=
  c = ' ' || c = '\t' || c = '\n' || c = '\r' || c = '\x0b' || c = '\x0c'

/-- Skip the regex piece \s*. -/
def skipSpaces (cs : List Char) : List Char := cs.dropWhile jsSpace

/-- Match literal \s* number at the current position, the shape of the
first three score patterns, returning the captured number token. -/
def matchLitNumAt (lit : List Char) (cs : List Char) : Option (List Char) :=
  if lit.isPrefixOf cs then
    match matchNumAt (skipSpaces (cs.drop lit.length)) with
    | some p => some p.1
    | none => none
  else none

/-- Match number \s* / \s* 1.0 at the current position, the shape of
the fourth score pattern. -/
def matchFracAt (cs : List Char) : Option (List Char) :=
  match matchNumAt cs with
  | some p =>
    match skipSpaces p.2 with
    | '/' :: r2 =>
      if ("1.0".data).isPrefixOf (skipSpaces r2) then some p.1 else none
    | _ => none
  | none => none

/-- Leftmost matching of String.prototype.match: try the matcher at
every position from the left and keep the first success. -/
def scanP (m : List Char → Option (List Char)) :
    List Char → Option (List Char)
  | [] => m []
  | c :: cs =>
    match m (c :: cs) with
    | some t => some t
    | none => scanP m cs

/-- The four ordered score patterns of parseScoreFromFeedback in
services/ollama.js, operating on lower-cased text (the source regexes
carry the i flag, which for these ASCII patterns is equivalent). -/
def jsPatterns : List (List Char → Option (List Char)) :=
  [scanP (matchLitNumAt ("**final_score:**".data)),
   scanP (matchLitNumAt ("final_score:".data)),
   scanP (matchLitNumAt ("score:".data)),
   scanP matchFracAt]

/-- Substring test of String.prototype.includes. -/
def containsSub : List Char → List Char → Bool
  | [], pat => pat.isEmpty
  | c :: rest, pat => pat.isPrefixOf (c :: rest) || containsSub rest pat

/-- Keyword fallback of parseScoreFromFeedback in services/ollama.js,
checked in source order on the lower-cased feedback. -/
def keywordFallback (cs : List Char) : ℚ :=
  if containsSub cs "excellent".data || containsSub cs "perfect".data then 0.95
  else if containsSub cs "good".data || containsSub cs "correct".data then 0.8
  else if containsSub cs "satisfactory".data || containsSub cs "okay".data then 0.6
  else if containsSub cs "needs improvement".data then 0.4
  else if containsSub cs "incorrect".data || containsSub cs "wrong".data then 0.2
  else 0.5

/-- Pattern cascade of parseScoreFromFeedback: the first pattern whose
captured value parses into [0,1] wins; an out-of-range value falls
through to the remaining patterns; when every pattern fails the keyword
fallback decides. -/
def parseScoreAux : List (List Char → Option (List Char)) → List Char → ℚ
  | [], cs => keywordFallback cs
  | p :: rest, cs =>
    match p cs with
    | some t =>
      if 0 ≤ ratOfToken t ∧ ratOfToken t ≤ 1 then ratOfToken t
      else parseScoreAux rest cs
    | none => parseScoreAux rest cs

/-- Score extraction, translated from parseScoreFromFeedback in
services/ollama.js. -/
def parseScoreFromFeedback (feedback : String) : ℚ :=
  parseScoreAux jsPatterns (feedback.data.map lowerChar)

/-- The keyword heuristic exactly as worded in the frozen claim C2,
without the synonym keywords of the source. -/
def claimKeywordScore (cs : List Char) : ℚ :=
  if containsSub cs "excellent".data then 0.95
  else if containsSub cs "good".data then 0.8
  else if containsSub cs "satisfactory".data then 0.6
  else if containsSub cs "needs improvement".data then 0.4
  else if containsSub cs "incorrect".data || containsSub cs "wrong".data then 0.2
  else 0.5

/-- The keyword heuristic as worded in the amended claim C2: the pairs
excellent/perfect, good/correct, satisfactory/okay, needs improvement,
incorrect/wrong are tested in that order by substring containment, with
default 0.5. -/
def amendedKeywordScore (cs : List Char) : ℚ :=
  if containsSub cs "excellent".data || containsSub cs "perfect".data then 0.95
  else if containsSub cs "good".data || containsSub cs "correct".data then 0.8
  else if containsSub cs "satisfactory".data || containsSub cs "okay".data then 0.6
  else if containsSub cs "needs improvement".data then 0.4
  else if containsSub cs "incorrect".data || containsSub cs "wrong".data then 0.2
  else 0.5

/-- The nine fallback keywords of the source. -/
def fallbackKeywords : List (List Char) :=
  ["excellent".data, "perfect".data, "good".data, "correct".data,
   "satisfactory".data, "okay".data, "needs improvement".data,
   "incorrect".data, "wrong".data]

/-- Absence of digits in a character list; every score pattern needs at
least one digit, so such text reaches the keyword fallback. -/
abbrev NoDigit (cs : List Char) : Prop := ∀ c ∈ cs, c.isDigit = false

theorem clamp01_nonneg (x : ℚ) : 0 ≤ clamp01 x := le_max_left 0 _

theorem clamp01_le_one (x : ℚ) : clamp01 x ≤ 1 :=
  max_le (by norm_num) (min_le_left 1 x)

/-- C1: for difficulty in the three named tiers the source update agrees
with the claimed formula; the worked example 0.2, 0.95, hard gives 0.368;
and the result is always inside the unit interval. -/
theorem claim_C1 (m s : ℚ) (d : String) :
    (d = "easy" ∨ d = "medium" ∨ d = "hard" →
      calculateMasteryUpdate m s d = masteryUpdateClaim m s d)
    ∧ calculateMasteryUpdate 0.2 0.95 "hard" = 0.368
    ∧ 0 ≤ calculateMasteryUpdate m s d ∧ calculateMasteryUpdate m s d ≤ 1 := by
  refine ⟨?_, ?_, ?_, ?_⟩
  case refine_2 =>
    simp only [calculateMasteryUpdate, clamp01]
    simp
    norm_num [min_def, max_def]
  · rintro (rfl | rfl | rfl) <;>
      simp [calculateMasteryUpdate, masteryUpdateClaim,
        masteryClaimBaseIncrement, masteryClaimLearningRate,
        masteryClaimDifficultyMultiplier]
  · exact clamp01_nonneg _
  · exact clamp01_le_one _

/-- Witness for C1 at the worked example input. -/
theorem claim_C1_witness :
    calculateMasteryUpdate 0.2 0.95 "hard" = masteryUpdateClaim 0.2 0.95 "hard" :=
  (claim_C1 0.2 0.95 "hard").1 (Or.inr (Or.inr rfl))

theorem mem_missingOf (ks : List (String × ℚ)) (l : List (String × ℚ))
    (p : String) :
    p ∈ missingOf ks l ↔
      ∃ w, (p, w) ∈ l ∧ lookupMastery ks p < 0.3 + w * 0.3 := by
  induction l with
  | nil => simp [missingOf]
  | cons hd tl ih =>
    obtain ⟨q, w⟩ := hd
    by_cases hc : lookupMastery ks q < 0.3 + w * 0.3
    · simp only [missingOf, if_pos hc, List.mem_cons, ih]
      constructor
      · rintro (rfl | ⟨w', hmem, hlt⟩)
        · exact ⟨w, Or.inl rfl, hc⟩
        · exact ⟨w', Or.inr hmem, hlt⟩
      · rintro ⟨w', hpq | hmem, hlt⟩
        · exact Or.inl (congrArg Prod.fst hpq)
        · exact Or.inr ⟨w', hmem, hlt⟩
    · simp only [missingOf, if_neg hc, ih, List.mem_cons]
      constructor
      · rintro ⟨w', hmem, hlt⟩
        exact ⟨w', Or.inr hmem, hlt⟩
      · rintro ⟨w', hpq | hmem, hlt⟩
        · injection hpq with h1 h2
          subst h1
          subst h2
          exact absurd hlt hc
        · exact ⟨w', hmem, hlt⟩

/-- C5: a prerequisite is reported missing exactly when its mastery is
below the threshold 0.3 + weight * 0.3, the topic is allowed iff the
missing list is empty, a topic with no prerequisites is always allowed,
and the two worked examples from the specification hold. -/
theorem claim_C5 (topic : String) (ks : List (String × ℚ)) (p : String) :
    (p ∈ (checkPrerequisites topic ks).2 ↔
      ∃ w, (p, w) ∈ weightedPrerequisites topic ∧
        lookupMastery ks p < 0.3 + w * 0.3)
    ∧ ((checkPrerequisites topic ks).1 = true ↔
        (checkPrerequisites topic ks).2 = [])
    ∧ (weightedPrerequisites topic = [] →
        checkPrerequisites topic ks = (true, []))
    ∧ checkPrerequisites "Binary Search Trees"
        [("Trees", 0.9), ("Binary Search", 0.9)] = (true, [])
    ∧ checkPrerequisites "Binary Search Trees"
        [("Trees", 0.1), ("Binary Search", 0.1)]
        = (false, ["Trees", "Binary Search"]) := by
  refine ⟨mem_missingOf ks (weightedPrerequisites topic) p, ?_, ?_, ?_, ?_⟩
  · simp [checkPrerequisites]
  · intro h
    simp [checkPrerequisites, h, missingOf]
  · norm_num [checkPrerequisites, weightedPrerequisites, lookupMastery,
      missingOf]
  · norm_num [checkPrerequisites, weightedPrerequisites, lookupMastery,
      missingOf]

/-- Witness for C5: a topic with an empty prerequisite list is allowed. -/
theorem claim_C5_witness : checkPrerequisites "Arrays" [] = (true, []) :=
  (claim_C5 "Arrays" [] "x").2.2.1 (by simp [weightedPrerequisites])

theorem foldl_add_eq_sum (l : List ℚ) (a : ℚ) :
    l.foldl (· + ·) a = a + l.sum := by
  induction l generalizing a with
  | nil => simp
  | cons x xs ih => simp [List.foldl_cons, ih, add_assoc]

/-- C6: the source difficulty does not depend on the standing mastery,
it equals the claimed tier of the claimed ability estimate, and the
three worked examples from the specification hold. -/
theorem claim_C6 (t : String) (m m' : ℚ) (h : List ℚ) :
    adjustDifficulty t m h = adjustDifficulty t m' h
    ∧ adjustDifficulty t m h = difficultyClaimTier (difficultyClaimTheta h)
    ∧ adjustDifficulty t m [0.9, 0.95, 1.0] = "hard"
    ∧ adjustDifficulty t m [0.1, 0.2] = "easy"
    ∧ adjustDifficulty t m [] = "medium" := by
  have key : ∀ r : List ℚ,
      (if 0 < r.length then r.foldl (· + ·) 0 / (r.length : ℚ) else 0.5)
        = (if r = [] then (0.5 : ℚ) else r.sum / r.length) := by
    intro r
    rcases eq_or_ne r [] with rfl | hne
    · simp
    · simp [hne, List.length_pos.mpr hne, foldl_add_eq_sum]
  refine ⟨rfl, ?_,
    by norm_num [adjustDifficulty, List.foldl],
    by norm_num [adjustDifficulty, List.foldl],
    by norm_num [adjustDifficulty]⟩
  simp only [adjustDifficulty, difficultyClaimTier, difficultyClaimTheta, key]

theorem foldl_argmax_mem (score : String → ℚ) (init : String)
    (l : List String) :
    l.foldl (fun a b => if score a > score b then a else b) init = init ∨
      l.foldl (fun a b => if score a > score b then a else b) init ∈ l := by
  induction l generalizing init with
  | nil => exact Or.inl rfl
  | cons b tl ih =>
    rw [List.foldl_cons]
    rcases ih (if score init > score b then init else b) with h | h
    · rw [h]
      by_cases hc : score init > score b
      · exact Or.inl (if_pos hc)
      · refine Or.inr ?_
        rw [if_neg hc]
        exact List.mem_cons_self b tl
    · exact Or.inr (List.mem_cons_of_mem b h)

theorem foldl_argmax_le (score : String → ℚ) (init : String)
    (l : List String) :
    ∀ x ∈ init :: l,
      score x ≤
        score (l.foldl (fun a b => if score a > score b then a else b) init) := by
  induction l generalizing init with
  | nil =>
    intro x hx
    rw [List.mem_singleton.mp hx]
    exact le_refl _
  | cons b tl ih =>
    intro x hx
    rw [List.foldl_cons]
    have hinit : score init ≤ score (if score init > score b then init else b) := by
      by_cases hc : score init > score b
      · rw [if_pos hc]
      · rw [if_neg hc]
        exact le_of_not_lt hc
    have hb : score b ≤ score (if score init > score b then init else b) := by
      by_cases hc : score init > score b
      · rw [if_pos hc]
        exact le_of_lt hc
      · rw [if_neg hc]
    have htop := ih (if score init > score b then init else b)
      (if score init > score b then init else b) (List.mem_cons_self _ _)
    rcases List.mem_cons.mp hx with rfl | hx2
    · exact le_trans hinit htop
    · rcases List.mem_cons.mp hx2 with rfl | hx3
      · exact le_trans hb htop
      · exact ih _ x (List.mem_cons_of_mem _ hx3)

/-- C4: for a non-empty catalog the selected topic is a member of the
catalog, its score is maximal among all catalog topics, and the score of
every topic agrees with the formula worded in the claim.  Ties are
resolved deterministically by the reduce over the catalog iteration
order. -/
theorem claim_C4 (ks : List (String × ℚ)) (hist : List (String × List ℚ))
    (hne : ks ≠ []) :
    selectNextTopic ks hist ∈ ks.map Prod.fst
    ∧ (∀ t ∈ ks.map Prod.fst,
        topicScore ks hist t ≤ topicScore ks hist (selectNextTopic ks hist))
    ∧ (∀ t, topicScore ks hist t = topicScoreClaim ks hist t) := by
  have hmap : ks.map Prod.fst ≠ [] := by
    simpa using hne
  refine ⟨?_, ?_, ?_⟩
  · cases hks : ks.map Prod.fst with
    | nil => exact absurd hks hmap
    | cons t rest =>
      unfold selectNextTopic
      rw [hks]
      dsimp only
      rcases foldl_argmax_mem (topicScore ks hist) t rest with h | h
      · rw [h]
        exact List.mem_cons_self t rest
      · exact List.mem_cons_of_mem t h
  · cases hks : ks.map Prod.fst with
    | nil => exact absurd hks hmap
    | cons t rest =>
      intro x hx
      unfold selectNextTopic
      rw [hks]
      dsimp only
      exact foldl_argmax_le (topicScore ks hist) t rest x (hks ▸ hx)
  · intro t
    simp [topicScore, topicScoreClaim, List.isEmpty_iff, List.length_eq_zero]

/-- Witness for C4 on a one-topic catalog. -/
theorem claim_C4_witness :
    selectNextTopic [("Arrays", 0)] []
      ∈ ([("Arrays", 0)] : List (String × ℚ)).map Prod.fst :=
  (claim_C4 [("Arrays", 0)] [] (by simp)).1

theorem getKey_setKey {α : Type} (d : α) (l : List (String × α)) (k : String)
    (v : α) : getKey d (setKey l k v) k = v := by
  induction l with
  | nil => simp [getKey, setKey]
  | cons hd tl ih =>
    obtain ⟨k', v'⟩ := hd
    by_cases hk : k' = k
    · simp [getKey, setKey, hk]
    · simp [getKey, setKey, hk, ih]

/-- C7 (amended): addQuestionHistory never consults the isCompleted
flag: recording on a completed session succeeds, appends the record,
and updates the session exactly as on an active one. -/
theorem claim_C7 (s : Session) (q : QuestionRecord) (b : Bool) :
    addQuestionHistory { s with isCompleted := b } q
      = { addQuestionHistory s q with isCompleted := b }
    ∧ (addQuestionHistory s q).questionHistory = s.questionHistory ++ [q]
    ∧ (addQuestionHistory s q).isCompleted = s.isCompleted := by
  obtain ⟨ks, qh, cs, lv, ic⟩ := s
  refine ⟨?_, ?_, ?_⟩ <;>
    · simp only [addQuestionHistory]
      by_cases h : 2 ≤ (topicAttempts (qh ++ [q]) q.topic).length <;> simp [h]

/-- Counterexample for C7 as frozen: recording an attempt on a completed
session does not fail and does change the session state, so the claimed
InvalidStateError behaviour does not hold. -/
theorem claim_C7_cex :
    (Session.mk [] [] [] [] true).isCompleted = true
    ∧ (addQuestionHistory (Session.mk [] [] [] [] true)
        ⟨"Arrays", "", "", "", 1, "medium", 0, 0⟩).questionHistory.length
      = (Session.mk [] [] [] [] true).questionHistory.length + 1 := by
  constructor
  · rfl
  · rfl

/-- C3 (amended): the submit-question route updates the streak exactly
as the claim words it, while the answer/evaluate route agrees with the
claim only on a passing score from a non-negative streak and instead
decrements min(0, streak) - 1 on a failing score. -/
theorem claim_C3 (s : Session) (topic : String) (prev : Int) (score : ℚ) :
    submitQuestionStreak s topic score
      = streakClaim (streakOf s.knowledgeStates topic) score
    ∧ (0 ≤ prev → score ≥ 0.7 →
        evaluateRouteStreak prev score = streakClaim prev score)
    ∧ (score < 0.7 → evaluateRouteStreak prev score = min 0 prev - 1)
    ∧ (score < 0.7 → streakClaim prev score = 0) := by
  refine ⟨rfl, ?_, ?_, ?_⟩
  · intro hp hs
    unfold evaluateRouteStreak streakClaim
    rw [if_pos hs, if_pos hs, max_eq_right hp]
  · intro hs
    unfold evaluateRouteStreak
    rw [if_neg (not_le.mpr hs)]
  · intro hs
    unfold streakClaim
    rw [if_neg (not_le.mpr hs)]

/-- Small numeric fact used to discharge the passing-score hypothesis. -/
theorem one_ge_passThreshold : (1 : ℚ) ≥ 0.7 := by norm_num

/-- Witness for C3 at streak 2 and score 1. -/
theorem claim_C3_witness : evaluateRouteStreak 2 1 = streakClaim 2 1 :=
  (claim_C3 (Session.mk [] [] [] [] false) "Arrays" 2 1).2.1 (by decide)
    one_ge_passThreshold

/-- Counterexample for C3 as frozen: the answer/evaluate route maps a
previous streak of 3 and a failing score to -1, not to the claimed
reset value 0. -/
theorem claim_C3_cex :
    evaluateRouteStreak 3 (1/2) = -1
    ∧ streakClaim 3 (1/2) = 0
    ∧ ((-1 : Int) ≠ 0) := by
  refine ⟨?_, ?_, by decide⟩
  · norm_num [evaluateRouteStreak, min_def]
  · norm_num [streakClaim]

/-- C9 (amended): addQuestionHistory recomputes the learning velocity as
attempts divided by elapsed hours once the topic has at least two
attempts (agreeing with the claimed formula for non-negative elapsed
time) and leaves the velocity map unchanged with fewer; the update-stats
route afterwards overwrites the velocity of the topic with its previous
value plus one. -/
theorem claim_C9 (s : Session) (q : QuestionRecord) (r : String) :
    (2 ≤ (topicAttempts (s.questionHistory ++ [q]) q.topic).length →
      0 ≤ elapsedMs (topicAttempts (s.questionHistory ++ [q]) q.topic) →
      getKey 0 (addQuestionHistory s q).learningVelocity q.topic
        = claimVelocity (s.questionHistory ++ [q]) q.topic)
    ∧ ((topicAttempts (s.questionHistory ++ [q]) q.topic).length < 2 →
      (addQuestionHistory s q).learningVelocity = s.learningVelocity)
    ∧ getKey 0 (updateStatsRoute s q r).learningVelocity q.topic
        = getKey 0 (addQuestionHistory s q).learningVelocity q.topic + 1 := by
  refine ⟨?_, ?_, ?_⟩
  · intro hn he
    unfold addQuestionHistory claimVelocity
    rw [if_pos hn, if_neg (not_lt.mpr hn)]
    simp only [getKey_setKey]
    rcases eq_or_lt_of_le he with he0 | hepos
    · have hz : elapsedMs (topicAttempts (s.questionHistory ++ [q]) q.topic)
          / 3600000 = 0 := by
        rw [← he0]
        norm_num
      rw [hz]
      norm_num
    · have hz : 0 < elapsedMs (topicAttempts (s.questionHistory ++ [q]) q.topic)
          / 3600000 := by positivity
      rw [if_pos hz, if_neg (ne_of_gt hz)]
  · intro hn
    unfold addQuestionHistory
    rw [if_neg (by omega)]
  · unfold updateStatsRoute
    simp only [updateKnowledgeState, getKey_setKey]

/-- Small list fact used to discharge the two-attempt hypothesis of the
C9 witness. -/
theorem twoAttempts_fact :
    2 ≤ (topicAttempts
      ((Session.mk [] [⟨"A", "", "", "", 1, "medium", 0, 0⟩] [] [] false).questionHistory
        ++ [⟨"A", "", "", "", 1, "medium", 0, 0⟩]) "A").length := by
  simp [topicAttempts]

/-- Small numeric fact used to discharge the elapsed-time hypothesis of
the C9 witness. -/
theorem elapsed_fact :
    0 ≤ elapsedMs (topicAttempts
      ((Session.mk [] [⟨"A", "", "", "", 1, "medium", 0, 0⟩] [] [] false).questionHistory
        ++ [⟨"A", "", "", "", 1, "medium", 0, 0⟩]) "A") := by
  simp [elapsedMs, topicAttempts]

/-- Witness for C9 on a two-attempt topic with zero elapsed time. -/
theorem claim_C9_witness :
    getKey 0 (addQuestionHistory
        (Session.mk [] [⟨"A", "", "", "", 1, "medium", 0, 0⟩] [] [] false)
        ⟨"A", "", "", "", 1, "medium", 0, 0⟩).learningVelocity "A"
      = claimVelocity
          ((Session.mk [] [⟨"A", "", "", "", 1, "medium", 0, 0⟩] [] [] false).questionHistory
            ++ [⟨"A", "", "", "", 1, "medium", 0, 0⟩]) "A" :=
  (claim_C9 (Session.mk [] [⟨"A", "", "", "", 1, "medium", 0, 0⟩] [] [] false)
    ⟨"A", "", "", "", 1, "medium", 0, 0⟩ "Correct").1 twoAttempts_fact elapsed_fact

/-- Counterexample for C9 as frozen: recording the very first attempt on
a topic through the update-stats route leaves the topic with one attempt
but learning velocity 1, where the claim requires 0. -/
theorem claim_C9_cex :
    (topicAttempts (updateStatsRoute (Session.mk [] [] [] [] false)
        ⟨"A", "", "", "", 1, "medium", 0, 0⟩ "Correct").questionHistory "A").length = 1
    ∧ getKey 0 (updateStatsRoute (Session.mk [] [] [] [] false)
        ⟨"A", "", "", "", 1, "medium", 0, 0⟩ "Correct").learningVelocity "A" = 1
    ∧ ((1 : ℚ) ≠ 0) := by
  refine ⟨?_, ?_, by norm_num⟩
  · simp [updateStatsRoute, addQuestionHistory, updateKnowledgeState,
      topicAttempts, setKey, getKey]
  · simp [updateStatsRoute, addQuestionHistory, updateKnowledgeState,
      topicAttempts, setKey, getKey, getKey_setKey]

/-- C8 (amended): when the backend call fails, evaluateAnswer returns
the fallback evaluation instead of an error; the fabricated score is
rand * 0.4 + 0.3, inside [0.3, 0.7) for a random draw in [0,1); and a
successful backend response is forwarded unchanged.  The function takes
no session state, so no session field is modified on either path. -/
theorem claim_C8 (msg question answer topic : String) (rand : ℚ)
    (h0 : 0 ≤ rand) (h1 : rand < 1) :
    evaluateAnswer (Except.error msg) question answer topic rand
      = Except.ok (generateFallbackEvaluation question answer topic rand)
    ∧ 0.3 ≤ (generateFallbackEvaluation question answer topic rand).score
    ∧ (generateFallbackEvaluation question answer topic rand).score < 0.7
    ∧ (∀ e, evaluateAnswer (Except.ok e) question answer topic rand
        = Except.ok e) := by
  refine ⟨rfl, ?_, ?_, fun e => rfl⟩
  · simp only [generateFallbackEvaluation]
    nlinarith
  · simp only [generateFallbackEvaluation]
    nlinarith

/-- Witness for C8 at the random draw 0. -/
theorem claim_C8_witness :
    evaluateAnswer (Except.error "timeout") "q" "a" "t" 0
      = Except.ok (generateFallbackEvaluation "q" "a" "t" 0) :=
  (claim_C8 "timeout" "q" "a" "t" 0 (by decide) (by decide)).1

/-- Counterexample for C8 as frozen: with an unreachable backend the
engine returns a successful result carrying the fabricated score 0.3
instead of propagating an error. -/
theorem claim_C8_cex :
    evaluateAnswer (Except.error "timeout") "q" "a" "t" 0
      = Except.ok (generateFallbackEvaluation "q" "a" "t" 0)
    ∧ (generateFallbackEvaluation "q" "a" "t" 0).score = 0.3 := by
  refine ⟨rfl, ?_⟩
  norm_num [generateFallbackEvaluation]

theorem takeDigits_of_noDigit (cs : List Char) (h : NoDigit cs) :
    takeDigits cs = ([], cs) := by
  cases cs with
  | nil => rfl
  | cons c rest =>
    have hc := h c (List.mem_cons_self c rest)
    simp [takeDigits, hc]

theorem noDigit_tail {c : Char} {cs : List Char} (h : NoDigit (c :: cs)) :
    NoDigit cs := fun x hx => h x (List.mem_cons_of_mem c hx)

theorem matchNumAt_of_noDigit (cs : List Char) (h : NoDigit cs) :
    matchNumAt cs = none := by
  unfold matchNumAt
  rw [takeDigits_of_noDigit cs h]
  cases cs with
  | nil => rfl
  | cons c rest =>
    by_cases hdot : c = '.'
    · subst hdot
      have := takeDigits_of_noDigit rest (noDigit_tail h)
      simp [this]
    · cases c with
      | mk v hv =>
        simp only []
        split
        · rename_i heq
          rw [List.cons.injEq] at heq
          exact absurd heq.1 hdot
        · simp

theorem noDigit_drop (cs : List Char) (n : ℕ) (h : NoDigit cs) :
    NoDigit (cs.drop n) :=
  fun c hc => h c (List.mem_of_mem_drop hc)

theorem noDigit_dropWhile (p : Char → Bool) (cs : List Char)
    (h : NoDigit cs) : NoDigit (cs.dropWhile p) :=
  fun c hc => h c ((List.dropWhile_sublist p).subset hc)

theorem matchLitNumAt_of_noDigit (lit cs : List Char) (h : NoDigit cs) :
    matchLitNumAt lit cs = none := by
  unfold matchLitNumAt
  split
  · rw [matchNumAt_of_noDigit (skipSpaces (cs.drop lit.length))
      (noDigit_dropWhile _ _ (noDigit_drop cs lit.length h))]
  · rfl

theorem matchFracAt_of_noDigit (cs : List Char) (h : NoDigit cs) :
    matchFracAt cs = none := by
  unfold matchFracAt
  rw [matchNumAt_of_noDigit cs h]

theorem scanP_of_noDigit (m : List Char → Option (List Char))
    (hm : ∀ cs, NoDigit cs → m cs = none) (cs : List Char)
    (h : NoDigit cs) : scanP m cs = none := by
  induction cs with
  | nil =>
    unfold scanP
    exact hm [] h
  | cons c rest ih =>
    unfold scanP
    rw [hm (c :: rest) h]
    exact ih (noDigit_tail h)

theorem parseScoreAux_fallthrough (ps : List (List Char → Option (List Char)))
    (cs : List Char)
    (h : ∀ p ∈ ps, ∀ t, p cs = some t →
      ¬(0 ≤ ratOfToken t ∧ ratOfToken t ≤ 1)) :
    parseScoreAux ps cs = keywordFallback cs := by
  induction ps with
  | nil => rfl
  | cons p rest ih =>
    have hrest : ∀ q ∈ rest, ∀ t, q cs = some t →
        ¬(0 ≤ ratOfToken t ∧ ratOfToken t ≤ 1) :=
      fun q hq => h q (List.mem_cons_of_mem p hq)
    unfold parseScoreAux
    cases hp : p cs with
    | none => exact ih hrest
    | some t =>
      have hx := h p (List.mem_cons_self p rest) t hp
      dsimp only
      rw [if_neg hx]
      exact ih hrest

theorem noDigit_patterns (cs : List Char) (h : NoDigit cs) :
    ∀ p ∈ jsPatterns, ∀ t, p cs = some t →
      ¬(0 ≤ ratOfToken t ∧ ratOfToken t ≤ 1) := by
  intro p hp t hpt
  exfalso
  have h1 := scanP_of_noDigit (matchLitNumAt ("**final_score:**".data))
    (fun cs2 hc => matchLitNumAt_of_noDigit _ cs2 hc) cs h
  have h2 := scanP_of_noDigit (matchLitNumAt ("final_score:".data))
    (fun cs2 hc => matchLitNumAt_of_noDigit _ cs2 hc) cs h
  have h3 := scanP_of_noDigit (matchLitNumAt ("score:".data))
    (fun cs2 hc => matchLitNumAt_of_noDigit _ cs2 hc) cs h
  have h4 := scanP_of_noDigit matchFracAt matchFracAt_of_noDigit cs h
  simp only [jsPatterns, List.mem_cons, List.not_mem_nil, or_false] at hp
  rcases hp with rfl | rfl | rfl | rfl
  · rw [h1] at hpt
    exact Option.noConfusion hpt
  · rw [h2] at hpt
    exact Option.noConfusion hpt
  · rw [h3] at hpt
    exact Option.noConfusion hpt
  · rw [h4] at hpt
    exact Option.noConfusion hpt

/-- C2 (amended): on every feedback string on which no score pattern
captures a value inside [0,1], the extractor applies the keyword
heuristic, which checks the keyword pairs excellent/perfect,
good/correct, satisfactory/okay, needs improvement, incorrect/wrong in
that order by substring containment; text additionally containing none
of the nine keywords scores exactly 0.5. -/
theorem claim_C2 (fb : String)
    (h : ∀ p ∈ jsPatterns, ∀ t, p (fb.data.map lowerChar) = some t →
      ¬(0 ≤ ratOfToken t ∧ ratOfToken t ≤ 1)) :
    parseScoreFromFeedback fb = amendedKeywordScore (fb.data.map lowerChar)
    ∧ ((∀ kw ∈ fallbackKeywords,
        containsSub (fb.data.map lowerChar) kw = false) →
      parseScoreFromFeedback fb = 0.5) := by
  have hmain : parseScoreFromFeedback fb
      = keywordFallback (fb.data.map lowerChar) :=
    parseScoreAux_fallthrough jsPatterns _ h
  constructor
  · exact hmain
  · intro hkw
    rw [hmain]
    have k1 := hkw "excellent".data (by simp [fallbackKeywords])
    have k2 := hkw "perfect".data (by simp [fallbackKeywords])
    have k3 := hkw "good".data (by simp [fallbackKeywords])
    have k4 := hkw "correct".data (by simp [fallbackKeywords])
    have k5 := hkw "satisfactory".data (by simp [fallbackKeywords])
    have k6 := hkw "okay".data (by simp [fallbackKeywords])
    have k7 := hkw "needs improvement".data (by simp [fallbackKeywords])
    have k8 := hkw "incorrect".data (by simp [fallbackKeywords])
    have k9 := hkw "wrong".data (by simp [fallbackKeywords])
    simp [keywordFallback, k1, k2, k3, k4, k5, k6, k7, k8, k9]

/-- Witness for C2 on keyword-free text, on which no pattern captures a
value because the text has no digit. -/
theorem claim_C2_witness : parseScoreFromFeedback "hello" = 0.5 :=
  (claim_C2 "hello" (noDigit_patterns _ (by decide))).2 (by decide)

/-- Counterexample for C2 as frozen: the word incorrect contains the
source synonym keyword correct, which is checked earlier, so the code
scores the feedback incorrect as 0.8 while the claimed mapping requires
0.2. -/
theorem claim_C2_cex :
    parseScoreFromFeedback "incorrect" = 0.8
    ∧ claimKeywordScore ("incorrect".data.map lowerChar) = 0.2
    ∧ ((0.8 : ℚ) ≠ 0.2) := by
  refine ⟨rfl, rfl, by norm_num⟩

theorem keywordFallback_mem (cs : List Char) :
    0 ≤ keywordFallback cs ∧ keywordFallback cs ≤ 1 := by
  unfold keywordFallback
  split_ifs <;> norm_num

theorem parseScoreAux_mem (ps : List (List Char → Option (List Char)))
    (cs : List Char) :
    0 ≤ parseScoreAux ps cs ∧ parseScoreAux ps cs ≤ 1 := by
  induction ps with
  | nil => exact keywordFallback_mem cs
  | cons p rest ih =>
    unfold parseScoreAux
    cases hp : p cs with
    | none => exact ih
    | some t =>
      by_cases hr : 0 ≤ ratOfToken t ∧ ratOfToken t ≤ 1
      · simp [hr]
      · simpa [hr] using ih

/-- C10: the score extractor is total with range inside [0,1], and a
pattern whose captured value parses outside [0,1] is skipped: the
remaining patterns and then the keyword fallback are consulted. -/
theorem claim_C10 (fb : String) :
    (0 ≤ parseScoreFromFeedback fb ∧ parseScoreFromFeedback fb ≤ 1)
    ∧ ∀ (p : List Char → Option (List Char))
        (rest : List (List Char → Option (List Char)))
        (cs t : List Char),
        p cs = some t → ¬(0 ≤ ratOfToken t ∧ ratOfToken t ≤ 1) →
        parseScoreAux (p :: rest) cs = parseScoreAux rest cs := by
  constructor
  · exact parseScoreAux_mem jsPatterns _
  · intro p rest cs t hp hr
    simp only [parseScoreAux, hp]
    rw [if_neg hr]

/-- Value of the C10 witness token 5. -/
theorem ratOfToken_five : ratOfToken ['5'] = 5 := by
  simp [ratOfToken, takeDigits, natOfDigits, List.foldl,
    (show ('5').isDigit = true from rfl)]

/-- Out-of-range fact for the C10 witness token 5. -/
theorem ratOfToken_five_large : ¬(0 ≤ ratOfToken ['5'] ∧ ratOfToken ['5'] ≤ 1) := by
  rw [ratOfToken_five]
  norm_num

/-- Witness for C10: the first pattern captures the out-of-range value 5
and the cascade falls through to the remaining three patterns. -/
theorem claim_C10_witness :
    parseScoreAux jsPatterns ("**final_score:** 5".data)
      = parseScoreAux
          [scanP (matchLitNumAt ("final_score:".data)),
           scanP (matchLitNumAt ("score:".data)),
           scanP matchFracAt] ("**final_score:** 5".data) :=
  (claim_C10 "x").2 (scanP (matchLitNumAt ("**final_score:**".data)))
    [scanP (matchLitNumAt ("final_score:".data)),
     scanP (matchLitNumAt ("score:".data)),
     scanP matchFracAt] ("**final_score:** 5".data) ['5'] rfl
    ratOfToken_five_large

end Assessment

